import Mathlib

/-!
Verification of the pytmm tile-merging core (pytmm/merge.py) against its
natural-language specification.

The embedding models Python integers as Int (Python floor division and
modulo are Int.fdiv and Int.fmod), raster images as a width, a height and
a total pixel function (meaningful on coordinates inside the bounds), and
the PIL collaborator calls (Image.new, Image.open, Image.paste, Image.crop)
by their documented semantics.  Fallible Python code returns Except values
whose error constructors name the Python exception that the corresponding
code path raises.
-/

namespace Pytmm

/-- An RGBA pixel: red, green, blue, alpha channel values. -/
abbrev RGBA := Nat × Nat × Nat × Nat

/-- The fully transparent pixel (0,0,0,0) used to initialise canvases. -/
def transparent : RGBA := (0, 0, 0, 0)

/-- A decoded raster image: dimensions plus a pixel function.  Only the
values of pix at coordinates x < width, y < height are meaningful. -/
structure Image where
  width : Nat
  height : Nat
  pix : Nat → Nat → RGBA

/-- The Python exceptions that the merge core can raise.  Each constructor
names the concrete exception class of the code path that produces it. -/
inductive PyError where
  /-- IndexError, raised by xys[0] in _determine_tile_size on empty input. -/
  | indexError
  /-- ZeroDivisionError, raised by tile_count // column_count at 0 columns. -/
  | zeroDivisionError
  /-- ValueError, raised by PIL paste on a region/image size mismatch and by
  PIL Image.new on a negative dimension. -/
  | valueError
  /-- FileNotFoundError carrying the offending path, raised by PIL
  Image.open on a path that cannot be opened. -/
  | fileNotFound (path : String)
deriving DecidableEq

/-- A file system: maps a path to the decoded image stored there, or none
when the path cannot be opened. -/
abbrev FS := String → Option Image

/-- Models os.path.abspath as the identity: path resolution is process
state outside the embedding, so the file system FS is keyed directly by
the paths the program passes to it. -/
def abspath (path : String) : String := path

/-- Models PIL Image.open: yields the decoded image, or raises
FileNotFoundError carrying the path when it cannot be opened. -/
def Image.openFile (fs : FS) (path : String) : Except PyError Image :=
  match fs path with
  | some image => .ok image
  | none => .error (.fileNotFound path)

/-- Models PIL Image.new("RGBA", size, (0,0,0,0)): a fully transparent
image of the given size; a negative dimension raises ValueError. -/
def Image.new (size : Int × Int) : Except PyError Image :=
  if 0 ≤ size.1 ∧ 0 ≤ size.2 then
    .ok { width := size.1.toNat, height := size.2.toNat, pix := fun _ _ => transparent }
  else
    .error .valueError

/-- Models PIL Image.paste with a 2-tuple box (upper-left corner) and no
mask: the pasted image overwrites the canvas pixels (alpha included) in
the rectangle starting at the offset, clipped to the canvas bounds. -/
def Image.paste2 (canvas im : Image) (off : Int × Int) : Image :=
  { canvas with
    pix := fun x y =>
      if x < canvas.width ∧ y < canvas.height ∧
         off.1 ≤ (x : Int) ∧ (x : Int) < off.1 + im.width ∧
         off.2 ≤ (y : Int) ∧ (y : Int) < off.2 + im.height then
        im.pix ((x : Int) - off.1).toNat ((y : Int) - off.2).toNat
      else
        canvas.pix x y }

/-- Models PIL Image.paste with a 4-tuple box (left, upper, right, lower)
and no mask: the region size must equal the pasted image size, otherwise
PIL raises ValueError (images do not match); on a match it behaves as the
2-tuple paste at the upper-left corner of the region. -/
def Image.paste4 (canvas im : Image) (box : Int × Int × Int × Int) : Except PyError Image :=
  if box.2.2.1 - box.1 = (im.width : Int) ∧ box.2.2.2 - box.2.1 = (im.height : Int) then
    .ok (canvas.paste2 im (box.1, box.2.1))
  else
    .error .valueError

/-- Models PIL Image.crop (left, upper, right, lower): a new image of the
region size; pixels read from outside the source bounds are transparent. -/
def Image.crop (im : Image) (box : Int × Int × Int × Int) : Image :=
  { width := (box.2.2.1 - box.1).toNat
    height := (box.2.2.2 - box.2.1).toNat
    pix := fun dx dy =>
      if 0 ≤ box.1 + dx ∧ box.1 + (dx : Int) < im.width ∧
         0 ≤ box.2.1 + dy ∧ box.2.1 + (dy : Int) < im.height then
        im.pix (box.1 + (dx : Int)).toNat (box.2.1 + (dy : Int)).toNat
      else
        transparent }

/-- Two images agree observably: equal dimensions and equal pixels at
every in-bounds coordinate. -/
def Image.sameAs (a b : Image) : Prop :=
  a.width = b.width ∧ a.height = b.height ∧
  ∀ x, x < a.width → ∀ y, y < a.height → a.pix x y = b.pix x y

/-- Embedding of _determine_tile_size: collects the (width, height) pairs
of the images, then returns the maximum width and maximum height.  The
Python max over the nonempty tuple of widths is the left fold of Nat.max
over the remaining entries starting from the first entry; on an empty
input the code indexes the empty tuple xys and raises IndexError. -/
def _determine_tile_size (images : List Image) : Except PyError (Nat × Nat) :=
  let sizes := images.map fun image => (image.width, image.height)
  match sizes with
  | [] => .error .indexError
  | s :: ss => .ok ((ss.map Prod.fst).foldl max s.1, (ss.map Prod.snd).foldl max s.2)

/-- Embedding of _determine_final_size: width is the tile width times
min(tile_count, column_count); the row count is max(1, tile_count //
column_count) with Python floor division, which raises ZeroDivisionError
when column_count is 0; height is row count times the tile height. -/
def _determine_final_size (tile_size : Int × Int) (column_count tile_count : Int) :
    Except PyError (Int × Int) :=
  let w_unit := tile_size.1
  let h_unit := tile_size.2
  let tileset_width := w_unit * min tile_count column_count
  if column_count = 0 then
    .error .zeroDivisionError
  else
    let row_count := max 1 (tile_count.fdiv column_count)
    .ok (tileset_width, row_count * h_unit)

/-- Embedding of resize_and_centre: creates a transparent canvas of the
requested size, computes the centering offsets with Python floor division,
and pastes the image with the 4-tuple box
(w_offset, h_offset, image_w, image_h) exactly as the code writes it. -/
def resize_and_centre (image : Image) (size : Int × Int) : Except PyError Image :=
  match Image.new size with
  | .error e => .error e
  | .ok copy_canvas =>
    let image_w : Int := image.width
    let image_h : Int := image.height
    let space_w := size.1 - image_w
    let space_h := size.2 - image_h
    let w_offset := space_w.fdiv 2
    let h_offset := space_h.fdiv 2
    copy_canvas.paste4 image (w_offset, h_offset, image_w, image_h)

/-- One pass of the iterator factory in _generate_tileset_from_files: opens
each file in order, propagating the first open error. -/
def openAll (fs : FS) : List String → Except PyError (List Image)
  | [] => .ok []
  | file :: rest =>
    match Image.openFile fs (abspath file) with
    | .error e => .error e
    | .ok image =>
      match openAll fs rest with
      | .error e => .error e
      | .ok images => .ok (image :: images)

/-- The second-pass loop of _generate_tileset_from_files: for the image at
zero-based index i, center-pad it to the tile size and paste the result at
destination offset ((i mod column_count) * tile_w, (i div column_count) *
tile_h), with Python floor modulo and division. -/
def pasteTiles (column_count : Int) (tile_size : Nat × Nat) (tileset : Image) (i : Nat) :
    List Image → Except PyError Image
  | [] => .ok tileset
  | image :: rest =>
    match resize_and_centre image ((tile_size.1 : Int), (tile_size.2 : Int)) with
    | .error e => .error e
    | .ok resized_image =>
      pasteTiles column_count tile_size
        (tileset.paste2 resized_image
          (((i : Int).fmod column_count) * (tile_size.1 : Int),
           ((i : Int).fdiv column_count) * (tile_size.2 : Int)))
        (i + 1) rest

/-- Embedding of _generate_tileset_from_files: first pass opens every file
to measure the tile size, then the final canvas size is computed from the
tile size, the column count and len(files), a transparent canvas is
allocated, and the second pass opens every file again and pastes each
center-padded image at its grid cell. -/
def _generate_tileset_from_files (fs : FS) (files : List String) (column_count : Int) :
    Except PyError Image :=
  match openAll fs files with
  | .error e => .error e
  | .ok first_pass =>
    match _determine_tile_size first_pass with
    | .error e => .error e
    | .ok tile_size =>
      match _determine_final_size ((tile_size.1 : Int), (tile_size.2 : Int))
          column_count (files.length : Int) with
      | .error e => .error e
      | .ok tileset_size =>
        match Image.new tileset_size with
        | .error e => .error e
        | .ok tileset =>
          match openAll fs files with
          | .error e => .error e
          | .ok second_pass => pasteTiles column_count tile_size tileset 0 second_pass

/-- Embedding of merge_tiles: generates the tileset and saves it to the
out file.  The returned pair models the single write of the finished
canvas to the output path; an error result models that no file is
written. -/
def merge_tiles (fs : FS) (files : List String) (outfile : String) (column_count : Int) :
    Except PyError (String × Image) :=
  match _generate_tileset_from_files fs files column_count with
  | .error e => .error e
  | .ok tileset => .ok (outfile, tileset)

/-- A concrete image of the given size with a position-dependent pixel
pattern, used to evaluate the embedding at specific inputs. -/
def testImage (w h : Nat) : Image := ⟨w, h, fun x y => (x, y, 7, 255)⟩

/-- A concrete 1 by 1 opaque grey image. -/
def imgA : Image := ⟨1, 1, fun _ _ => (9, 9, 9, 255)⟩

/-- A concrete file system holding imgA at path a and nothing else. -/
def fsW : FS := fun p => if p = "a" then some imgA else none

/-- A concrete file system with no openable paths. -/
def fs0 : FS := fun _ => none

/-- The tileset produced by merging the single file a at one column. -/
def genHit : Image :=
  (_generate_tileset_from_files fsW ["a"] 1).toOption.getD (testImage 0 0)

/-- The tileset produced by merging three copies of the file a at two
columns: three tiles, two columns, so the third tile lands in a truncated
second row. -/
def genC : Image :=
  (_generate_tileset_from_files fsW ["a", "a", "a"] 2).toOption.getD (testImage 0 0)

/-- The center-padded form of imgA at tile size (1, 1). -/
def padA : Image := (resize_and_centre imgA (1, 1)).toOption.getD (testImage 0 0)

/-- The center-padded form of a 2 by 2 test image at target size (2, 3). -/
def padC : Image := (resize_and_centre (testImage 2 2) (2, 3)).toOption.getD (testImage 0 0)

/-- C1 (evaluation at the failing input): padding a 6 by 4 image into a
10 by 10 target does not return the 10 by 10 centered copy the spec
describes; the code passes the paste region (2, 3, 6, 4), whose 4 by 1
size differs from the 6 by 4 image, so PIL paste raises ValueError. -/
theorem C1_centre_pad_failing_input :
    resize_and_centre (testImage 6 4) (10, 10) = .error .valueError := rfl

/-- C2: for every tile size (w, h), column count at least 1 and tile count
at least 1, _determine_final_size returns width w * min(tile_count,
column_count) and height h * max(1, tile_count fdiv column_count). -/
theorem C2_determine_tileset_size (w h cc tc : Int) (hcc : 1 ≤ cc) (htc : 1 ≤ tc) :
    _determine_final_size (w, h) cc tc = .ok (w * min tc cc, h * max 1 (tc.fdiv cc)) := by
  have hne : cc ≠ 0 := by omega
  unfold _determine_final_size
  rw [if_neg hne]
  simp [Int.mul_comm]

/-- Witness for C2 at the three concrete examples of the claim. -/
theorem C2_witness :
    ((1 : Int) ≤ 4 ∧ (1 : Int) ≤ 4) ∧
    _determine_final_size (10, 10) 4 4 = .ok (40, 10) ∧
    _determine_final_size (10, 10) 4 6 = .ok (40, 10) ∧
    _determine_final_size (10, 10) 4 2 = .ok (20, 10) :=
  ⟨⟨by omega, by omega⟩,
    C2_determine_tileset_size 10 10 4 4 (by omega) (by omega),
    C2_determine_tileset_size 10 10 4 6 (by omega) (by omega),
    C2_determine_tileset_size 10 10 4 2 (by omega) (by omega)⟩

/-- C6: the empty input makes _determine_tile_size fail (the code indexes
the empty tuple of sizes, raising IndexError, the realisation of the
EmptyInputError kind of the spec); it never returns a tile size, and the
merge operation on an empty file list fails the same way. -/
theorem C6_empty_input :
    _determine_tile_size ([] : List Image) = .error .indexError ∧
    (∀ s, _determine_tile_size ([] : List Image) ≠ .ok s) ∧
    ∀ (fs : FS) (outfile : String) (cc : Int),
      merge_tiles fs [] outfile cc = .error .indexError :=
  ⟨rfl, fun _ h => Except.noConfusion h, fun _ _ _ => rfl⟩

/-- C7 counterexample: _determine_final_size returns a size at column
count -1 (with a negative width and no error), so it is false that a size
is only returned when the column count is at least 1, and no
InvalidConfigurationError is raised. -/
theorem C7_counterexample :
    _determine_final_size (10, 10) (-1) 3 = .ok (-10, 10) := rfl

/-- C7 (amended): the code performs no column-count validation.  With
column count 0 the floor division raises ZeroDivisionError (not an
InvalidConfigurationError), and with every nonzero column count,
negative ones included, a size is returned. -/
theorem C7_no_column_validation (w h tc : Int) :
    _determine_final_size (w, h) 0 tc = .error .zeroDivisionError ∧
    ∀ cc : Int, cc ≠ 0 → ∃ s, _determine_final_size (w, h) cc tc = .ok s := by
  constructor
  · unfold _determine_final_size
    rw [if_pos rfl]
  · intro cc hcc
    refine ⟨(w * min tc cc, max 1 (tc.fdiv cc) * h), ?_⟩
    unfold _determine_final_size
    rw [if_neg hcc]

/-- Witness for C7 amended theorem at concrete inputs. -/
theorem C7_witness :
    _determine_final_size (10, 10) 0 5 = .error .zeroDivisionError ∧
    ((-1 : Int) ≠ 0 ∧ ∃ s, _determine_final_size (10, 10) (-1) 5 = .ok s) :=
  ⟨(C7_no_column_validation 10 10 5).1,
    by omega, (C7_no_column_validation 10 10 5).2 (-1) (by omega)⟩

/-- The start value of a left max fold is a lower bound of the result. -/
theorem le_foldl_max (l : List Nat) (a : Nat) : a ≤ l.foldl max a := by
  induction l generalizing a with
  | nil => exact Nat.le_refl a
  | cons x xs ih => exact Nat.le_trans (Nat.le_max_left a x) (ih (max a x))

/-- Every member of the list is a lower bound of a left max fold. -/
theorem foldl_max_le_of_mem {l : List Nat} {x : Nat} (hx : x ∈ l) (a : Nat) :
    x ≤ l.foldl max a := by
  induction l generalizing a with
  | nil => cases hx
  | cons y ys ih =>
    rcases List.mem_cons.mp hx with rfl | h
    · exact Nat.le_trans (Nat.le_max_right a x) (le_foldl_max ys (max a x))
    · exact ih h (max a y)

/-- A left max fold yields either its start value or a member of the list. -/
theorem foldl_max_attained (l : List Nat) (a : Nat) :
    l.foldl max a = a ∨ l.foldl max a ∈ l := by
  induction l generalizing a with
  | nil => exact Or.inl rfl
  | cons x xs ih =>
    rcases ih (max a x) with h | h
    · rcases max_choice a x with hm | hm
      · exact Or.inl (by rw [List.foldl_cons, h, hm])
      · exact Or.inr (by rw [List.foldl_cons, h, hm]; exact List.mem_cons_self x xs)
    · exact Or.inr (List.mem_cons_of_mem x h)

/-- C3: on every non-empty image list, _determine_tile_size returns the
pair of the maximum width and the maximum height: each returned dimension
bounds the corresponding dimension of every input image from above and is
attained by at least one input image. -/
theorem C3_determine_tile_size (images : List Image) (hne : images ≠ []) :
    ∃ W H, _determine_tile_size images = .ok (W, H) ∧
      (∀ im ∈ images, im.width ≤ W ∧ im.height ≤ H) ∧
      (∃ im ∈ images, im.width = W) ∧ (∃ im ∈ images, im.height = H) := by
  match images, hne with
  | i :: is, _ =>
    have hdef : _determine_tile_size (i :: is) =
        .ok ((is.map Image.width).foldl max i.width, (is.map Image.height).foldl max i.height) := by
      simp only [_determine_tile_size, List.map_cons, List.map_map]
      rfl
    refine ⟨(is.map Image.width).foldl max i.width,
            (is.map Image.height).foldl max i.height, hdef, ?_, ?_, ?_⟩
    · intro im him
      rcases List.mem_cons.mp him with rfl | h
      · exact ⟨le_foldl_max _ _, le_foldl_max _ _⟩
      · exact ⟨foldl_max_le_of_mem (List.mem_map_of_mem Image.width h) _,
               foldl_max_le_of_mem (List.mem_map_of_mem Image.height h) _⟩
    · rcases foldl_max_attained (is.map Image.width) i.width with h | h
      · exact ⟨i, List.mem_cons_self i is, h.symm⟩
      · rcases List.mem_map.mp h with ⟨im, him, heq⟩
        exact ⟨im, List.mem_cons_of_mem i him, heq⟩
    · rcases foldl_max_attained (is.map Image.height) i.height with h | h
      · exact ⟨i, List.mem_cons_self i is, h.symm⟩
      · rcases List.mem_map.mp h with ⟨im, him, heq⟩
        exact ⟨im, List.mem_cons_of_mem i him, heq⟩

/-- Witness for C3 on a concrete two-image list of sizes (3,5) and (7,2). -/
theorem C3_witness :
    ([testImage 3 5, testImage 7 2] ≠ []) ∧
    ∃ W H, _determine_tile_size [testImage 3 5, testImage 7 2] = .ok (W, H) ∧
      (∀ im ∈ [testImage 3 5, testImage 7 2], im.width ≤ W ∧ im.height ≤ H) ∧
      (∃ im ∈ [testImage 3 5, testImage 7 2], im.width = W) ∧
      (∃ im ∈ [testImage 3 5, testImage 7 2], im.height = H) :=
  ⟨List.cons_ne_nil _ _, C3_determine_tile_size _ (List.cons_ne_nil _ _)⟩

/-- When some file of the list cannot be opened, openAll fails with
FileNotFoundError carrying (the resolved form of) the first such path. -/
theorem openAll_missing (fs : FS) (files : List String)
    (hmiss : ∃ f ∈ files, fs (abspath f) = none) :
    ∃ f ∈ files, fs (abspath f) = none ∧
      openAll fs files = .error (.fileNotFound (abspath f)) := by
  induction files with
  | nil => rcases hmiss with ⟨f, hf, _⟩; cases hf
  | cons g rest ih =>
    rcases hmiss with ⟨f, hf, hnone⟩
    cases hg : fs (abspath g) with
    | none =>
      refine ⟨g, List.mem_cons_self g rest, hg, ?_⟩
      simp only [openAll, Image.openFile, hg]
    | some im =>
      have hfr : f ∈ rest := by
        rcases List.mem_cons.mp hf with rfl | h
        · rw [hg] at hnone; cases hnone
        · exact h
      rcases ih ⟨f, hfr, hnone⟩ with ⟨f', hf', hn', hrec⟩
      refine ⟨f', List.mem_cons_of_mem g hf', hn', ?_⟩
      simp only [openAll, Image.openFile, hg, hrec]

/-- C8: when the file list contains a path that cannot be opened, the
merge operation fails with FileNotFoundError carrying that offending
path, and no output is written: the save step (the ok result pairing the
out path with the canvas) is never reached. -/
theorem C8_missing_file (fs : FS) (files : List String) (outfile : String) (cc : Int)
    (hmiss : ∃ f ∈ files, fs (abspath f) = none) :
    ∃ f ∈ files, fs (abspath f) = none ∧
      merge_tiles fs files outfile cc = .error (.fileNotFound (abspath f)) ∧
      ∀ saved, merge_tiles fs files outfile cc ≠ .ok saved := by
  rcases openAll_missing fs files hmiss with ⟨f, hf, hn, hopen⟩
  have hmerge : merge_tiles fs files outfile cc = .error (.fileNotFound (abspath f)) := by
    unfold merge_tiles _generate_tileset_from_files
    rw [hopen]
  exact ⟨f, hf, hn, hmerge, fun saved h => Except.noConfusion (hmerge ▸ h)⟩

/-- Witness for C8: all-missing file system, one file named ghost. -/
theorem C8_witness :
    (∃ f ∈ ["ghost"], fs0 (abspath f) = none) ∧
    ∃ f ∈ ["ghost"], fs0 (abspath f) = none ∧
      merge_tiles fs0 ["ghost"] "out.png" 4 = .error (.fileNotFound (abspath f)) ∧
      ∀ saved, merge_tiles fs0 ["ghost"] "out.png" 4 ≠ .ok saved :=
  ⟨⟨"ghost", List.mem_singleton.mpr rfl, rfl⟩,
    C8_missing_file fs0 ["ghost"] "out.png" 4 ⟨"ghost", List.mem_singleton.mpr rfl, rfl⟩⟩

/-- Python floor division of an integer by two is zero exactly on 0 and 1. -/
theorem fdiv_two_eq_zero_iff (a : Int) : a.fdiv 2 = 0 ↔ 0 ≤ a ∧ a < 2 := by
  rw [Int.fdiv_eq_ediv a (by omega : (0:Int) ≤ 2)]
  omega

/-- C9: resize_and_centre passes (w_offset, h_offset, image_w, image_h) as
the 4-tuple paste region, whose size (image_w - w_offset, image_h -
h_offset) matches the source image only when both offsets are zero: when a
target dimension exceeds the corresponding source dimension by 2 or more
the call yields the paste ValueError instead of a padded copy, and it
succeeds only when each target dimension exceeds the corresponding source
dimension by at most 1. -/
theorem C9_resize_region_mismatch (image : Image) (tw th : Int) :
    (((image.width : Int) + 2 ≤ tw ∨ (image.height : Int) + 2 ≤ th) →
       resize_and_centre image (tw, th) = .error .valueError) ∧
    (∀ out, resize_and_centre image (tw, th) = .ok out →
       tw ≤ (image.width : Int) + 1 ∧ th ≤ (image.height : Int) + 1) := by
  constructor
  · intro hbig
    unfold resize_and_centre
    split
    · rename_i e heq
      unfold Image.new at heq
      split at heq
      · exact Except.noConfusion heq
      · injection heq with h
        rw [← h]
    · rename_i copy_canvas heq
      unfold Image.paste4
      rw [if_neg]
      rintro ⟨h1, h2⟩
      dsimp only at h1 h2
      rcases hbig with hw | hh
      · have h0 : (tw - (image.width : Int)).fdiv 2 = 0 := by omega
        have := (fdiv_two_eq_zero_iff _).mp h0
        omega
      · have h0 : (th - (image.height : Int)).fdiv 2 = 0 := by omega
        have := (fdiv_two_eq_zero_iff _).mp h0
        omega
  · intro out h
    unfold resize_and_centre at h
    split at h
    · exact Except.noConfusion h
    · rename_i copy_canvas heq
      unfold Image.paste4 at h
      have h' : (if (image.width : Int) - (tw - (image.width : Int)).fdiv 2 = (image.width : Int) ∧
            (image.height : Int) - (th - (image.height : Int)).fdiv 2 = (image.height : Int) then
            Except.ok (copy_canvas.paste2 image
              ((tw - (image.width : Int)).fdiv 2, (th - (image.height : Int)).fdiv 2))
          else Except.error PyError.valueError) = Except.ok out := h
      split at h'
      · rename_i hcond
        rcases hcond with ⟨h1, h2⟩
        have hw0 : (tw - (image.width : Int)).fdiv 2 = 0 := by omega
        have hh0 : (th - (image.height : Int)).fdiv 2 = 0 := by omega
        have hw := (fdiv_two_eq_zero_iff _).mp hw0
        have hh := (fdiv_two_eq_zero_iff _).mp hh0
        omega
      · exact Except.noConfusion h'

/-- Witness for C9: a 3 by 3 image into a 7 by 7 target errors; a 2 by 2
image into a (2, 3) target succeeds, within one pixel of the source in
each dimension. -/
theorem C9_witness :
    (((testImage 3 3).width : Int) + 2 ≤ 7 ∨ ((testImage 3 3).height : Int) + 2 ≤ 7) ∧
    resize_and_centre (testImage 3 3) (7, 7) = .error .valueError ∧
    resize_and_centre (testImage 2 2) (2, 3) = .ok padC ∧
    ((2 : Int) ≤ ((testImage 2 2).width : Int) + 1 ∧
      (3 : Int) ≤ ((testImage 2 2).height : Int) + 1) :=
  ⟨Or.inl (by decide),
    (C9_resize_region_mismatch (testImage 3 3) 7 7).1 (Or.inl (by decide)),
    rfl,
    (C9_resize_region_mismatch (testImage 2 2) 2 3).2 padC rfl⟩

/-- C10: with more tiles than columns and a tile count that is not a
multiple of the column count, the canvas height max(1, tc fdiv cc) * h
collapses to (tc fdiv cc) * h, the destination y-offset (tc - 1) fdiv cc
* h of the last image is at least (in fact equal to) that height, every
image of the final partial row (index at least (tc fdiv cc) * cc) has a
y-offset at least that height, and a paste whose y-offset is at least the
canvas height leaves every visible canvas pixel unchanged — the partial
row does not appear in the output and no error is raised. -/
theorem C10_partial_row_truncated (w h cc tc : Int)
    (hcc : 1 ≤ cc) (htc : cc < tc) (hmod : tc.fmod cc ≠ 0) (hh : 0 ≤ h) :
    _determine_final_size (w, h) cc tc = .ok (w * min tc cc, tc.fdiv cc * h) ∧
    (tc - 1).fdiv cc * h = tc.fdiv cc * h ∧
    (∀ i : Int, tc.fdiv cc * cc ≤ i → tc.fdiv cc * h ≤ i.fdiv cc * h) ∧
    (∀ (T P : Image) (x0 y0 : Int), (T.height : Int) ≤ y0 →
      ∀ x y : Nat, y < T.height → (T.paste2 P (x0, y0)).pix x y = T.pix x y) := by
  have hcc0 : (0:Int) < cc := by omega
  have hccne : cc ≠ 0 := by omega
  have hfdiv : ∀ a : Int, a.fdiv cc = a / cc := fun a => Int.fdiv_eq_ediv a (by omega)
  have hq1 : 1 ≤ tc / cc := (Int.le_ediv_iff_mul_le hcc0).mpr (by omega)
  have hr0 : 0 ≤ tc % cc := Int.emod_nonneg tc hccne
  have hrlt : tc % cc < cc := Int.emod_lt_of_pos tc hcc0
  have hrne : tc % cc ≠ 0 := by
    rwa [← Int.fmod_eq_emod tc (le_of_lt hcc0)]
  have hr1 : 0 < tc % cc := lt_of_le_of_ne hr0 (Ne.symm hrne)
  refine ⟨?_, ?_, ?_, ?_⟩
  · unfold _determine_final_size
    rw [if_neg hccne, hfdiv, max_eq_right hq1]
  · rw [hfdiv, hfdiv]
    have h0 : tc = tc % cc + cc * (tc / cc) := (Int.emod_add_ediv tc cc).symm
    have hstep : tc - 1 = (tc % cc - 1) + (tc / cc) * cc := by linear_combination h0
    rw [hstep, Int.add_mul_ediv_right _ _ hccne,
        Int.ediv_eq_zero_of_lt (by linarith) (by linarith), Int.zero_add]
  · intro i hi
    rw [hfdiv tc] at hi ⊢
    rw [hfdiv i]
    exact mul_le_mul_of_nonneg_right ((Int.le_ediv_iff_mul_le hcc0).mpr hi) hh
  · intro T P x0 y0 hy0 x y hy
    unfold Image.paste2
    dsimp only
    rw [if_neg]
    rintro ⟨-, -, -, -, hle, -⟩
    have hyi : (y : Int) < (T.height : Int) := by exact_mod_cast hy
    linarith

/-- Witness for C10 at tile size (10, 10), 4 columns, 6 tiles. -/
theorem C10_witness :
    _determine_final_size (10, 10) 4 6 = .ok (40, 10) ∧
    ((6 - 1 : Int).fdiv 4 * 10 = (6 : Int).fdiv 4 * 10) ∧
    ((6 : Int).fdiv 4 * 10 ≤ (5 : Int).fdiv 4 * 10) ∧
    (((testImage 2 1).paste2 imgA (0, 5)).pix 0 0 = (testImage 2 1).pix 0 0) :=
  have h := C10_partial_row_truncated 10 10 4 6 (by omega) (by omega) (by decide) (by omega)
  ⟨h.1, h.2.1, h.2.2.1 5 (by decide),
    h.2.2.2 (testImage 2 1) imgA 0 5 (by decide) 0 0 (by decide)⟩

/-- Python modulo of a natural index by a positive column count agrees
with Nat modulo of the truncation of the count. -/
theorem fmod_toNat (n : Nat) (cc : Int) (hcc : 1 ≤ cc) :
    (n : Int).fmod cc = ((n % cc.toNat : Nat) : Int) := by
  obtain ⟨c, rfl⟩ : ∃ c : Nat, cc = (c : Int) := ⟨cc.toNat, (Int.toNat_of_nonneg (by omega)).symm⟩
  rw [Int.toNat_ofNat]
  exact (Int.ofNat_fmod n c).symm

/-- Python floor division of a natural index by a positive column count
agrees with Nat division of the truncation of the count. -/
theorem fdiv_toNat (n : Nat) (cc : Int) (hcc : 1 ≤ cc) :
    (n : Int).fdiv cc = ((n / cc.toNat : Nat) : Int) := by
  obtain ⟨c, rfl⟩ : ∃ c : Nat, cc = (c : Int) := ⟨cc.toNat, (Int.toNat_of_nonneg (by omega)).symm⟩
  rw [Int.toNat_ofNat]
  exact (Int.ofNat_fdiv n c).symm

/-- Inversion of a successful Image.new call: nonnegative requested size,
requested dimensions, all pixels transparent. -/
theorem new_ok {size : Int × Int} {out : Image} (h : Image.new size = .ok out) :
    0 ≤ size.1 ∧ 0 ≤ size.2 ∧ out.width = size.1.toNat ∧ out.height = size.2.toNat ∧
    ∀ x y, out.pix x y = transparent := by
  unfold Image.new at h
  split at h
  · rename_i hc
    injection h with h
    subst h
    exact ⟨hc.1, hc.2, rfl, rfl, fun _ _ => rfl⟩
  · exact Except.noConfusion h

/-- Inversion of a successful 4-tuple paste: the region size matched the
image and the result is the 2-tuple paste at the region corner. -/
theorem paste4_ok {canvas im : Image} {box : Int × Int × Int × Int} {out : Image}
    (h : canvas.paste4 im box = .ok out) :
    box.2.2.1 - box.1 = (im.width : Int) ∧ box.2.2.2 - box.2.1 = (im.height : Int) ∧
    out = canvas.paste2 im (box.1, box.2.1) := by
  unfold Image.paste4 at h
  split at h
  · rename_i hc
    injection h with h
    exact ⟨hc.1, hc.2, h.symm⟩
  · exact Except.noConfusion h

/-- A successful resize_and_centre call has nonnegative target size and
produces an image of exactly the target size. -/
theorem resize_ok {image : Image} {tw th : Int} {out : Image}
    (h : resize_and_centre image (tw, th) = .ok out) :
    0 ≤ tw ∧ 0 ≤ th ∧ out.width = tw.toNat ∧ out.height = th.toNat := by
  unfold resize_and_centre at h
  split at h
  · exact Except.noConfusion h
  · rename_i copy_canvas heq
    obtain ⟨h1, h2, hout⟩ := paste4_ok h
    obtain ⟨hw0, hh0, hw, hh, -⟩ := new_ok heq
    subst hout
    exact ⟨hw0, hh0, hw, hh⟩

/-- Pixels of a 2-tuple paste inside the pasted region and the canvas
bounds come from the pasted image. -/
theorem paste2_pix_in (canvas im : Image) (x0 y0 dx dy : Nat)
    (hdx : dx < im.width) (hdy : dy < im.height)
    (hx : x0 + dx < canvas.width) (hy : y0 + dy < canvas.height) :
    (canvas.paste2 im ((x0 : Int), (y0 : Int))).pix (x0 + dx) (y0 + dy) = im.pix dx dy := by
  simp only [Image.paste2]
  rw [if_pos]
  · have hx' : ((x0 + dx : Nat) : Int) - (x0 : Int) = (dx : Int) := by push_cast; ring
    have hy' : ((y0 + dy : Nat) : Int) - (y0 : Int) = (dy : Int) := by push_cast; ring
    rw [hx', hy', Int.toNat_ofNat, Int.toNat_ofNat]
  · refine ⟨hx, hy, ?_, ?_, ?_, ?_⟩ <;> push_cast <;> omega

/-- Pixels outside the pasted region are unchanged by a 2-tuple paste. -/
theorem paste2_pix_out (canvas im : Image) (off : Int × Int) (x y : Nat)
    (h : ¬ (off.1 ≤ (x : Int) ∧ (x : Int) < off.1 + im.width ∧
            off.2 ≤ (y : Int) ∧ (y : Int) < off.2 + im.height)) :
    (canvas.paste2 im off).pix x y = canvas.pix x y := by
  simp only [Image.paste2]
  rw [if_neg]
  rintro ⟨-, -, h1, h2, h3, h4⟩
  exact h ⟨h1, h2, h3, h4⟩

/-- Two distinct multiples-of-W windows of width W are disjoint. -/
theorem interval_disjoint {a b x W : Nat} (hab : a ≠ b)
    (h1 : a * W ≤ x) (h2 : x < a * W + W)
    (h1' : b * W ≤ x) (h2' : x < b * W + W) : False := by
  rcases Nat.lt_trichotomy a b with h | h | h
  · have hstep : a * W + W ≤ b * W := by
      calc a * W + W = (a + 1) * W := by rw [Nat.succ_mul]
        _ ≤ b * W := Nat.mul_le_mul_right W (Nat.succ_le_of_lt h)
    omega
  · exact hab h
  · have hstep : b * W + W ≤ a * W := by
      calc b * W + W = (b + 1) * W := by rw [Nat.succ_mul]
        _ ≤ a * W := Nat.mul_le_mul_right W (Nat.succ_le_of_lt h)
    omega

/-- Grid cells of distinct linear indices are disjoint pixel regions. -/
theorem cells_disjoint (c W H j j' : Nat) {x y : Nat} (hne : j ≠ j')
    (h1 : (j % c) * W ≤ x) (h2 : x < (j % c) * W + W)
    (h3 : (j / c) * H ≤ y) (h4 : y < (j / c) * H + H) :
    ¬ ((j' % c) * W ≤ x ∧ x < (j' % c) * W + W ∧
       (j' / c) * H ≤ y ∧ y < (j' / c) * H + H) := by
  rintro ⟨h1', h2', h3', h4'⟩
  by_cases hmod : j % c = j' % c
  · have hdiv : j / c ≠ j' / c := by
      intro hdiv
      apply hne
      have e1 := Nat.div_add_mod j c
      have e2 := Nat.div_add_mod j' c
      rw [← e1, ← e2, hmod, hdiv]
    exact interval_disjoint hdiv h3 h4 h3' h4'
  · exact interval_disjoint hmod h1 h2 h1' h2'

/-- Opening every file preserves the list length. -/
theorem openAll_length {fs : FS} : ∀ {files : List String} {imgs : List Image},
    openAll fs files = .ok imgs → imgs.length = files.length := by
  intro files
  induction files with
  | nil =>
    intro imgs h
    unfold openAll at h
    injection h with h
    subst h
    rfl
  | cons g rest ih =>
    intro imgs h
    unfold openAll at h
    split at h
    · exact Except.noConfusion h
    · split at h
      · exact Except.noConfusion h
      · rename_i image _ images hrec
        injection h with h
        rw [← h]
        simp [ih hrec]

/-- Invariant of the second-pass paste loop: a successful run preserves
the canvas dimensions, leaves every pixel outside the painted grid cells
unchanged, and at each processed index k the center-padded copy of image
k succeeded (with the tile dimensions) and fills the grid cell of linear
index i0 + k, as far as that cell lies inside the canvas. -/
theorem pasteTiles_ok_spec (cc : Int) (hcc : 1 ≤ cc) (W H : Nat) :
    ∀ (imgs : List Image) (i0 : Nat) (T T' : Image),
      pasteTiles cc (W, H) T i0 imgs = .ok T' →
      (T'.width = T.width ∧ T'.height = T.height) ∧
      (∀ x y : Nat,
        (∀ k, k < imgs.length →
          ¬ (((i0 + k) % cc.toNat) * W ≤ x ∧ x < ((i0 + k) % cc.toNat) * W + W ∧
             ((i0 + k) / cc.toNat) * H ≤ y ∧ y < ((i0 + k) / cc.toNat) * H + H)) →
        T'.pix x y = T.pix x y) ∧
      (∀ k (hk : k < imgs.length),
        ∃ P, resize_and_centre (imgs.get ⟨k, hk⟩) ((W : Int), (H : Int)) = .ok P ∧
          P.width = W ∧ P.height = H ∧
          ∀ dx dy : Nat, dx < W → dy < H →
            ((i0 + k) % cc.toNat) * W + dx < T.width →
            ((i0 + k) / cc.toNat) * H + dy < T.height →
            T'.pix (((i0 + k) % cc.toNat) * W + dx) (((i0 + k) / cc.toNat) * H + dy) =
              P.pix dx dy) := by
  intro imgs
  induction imgs with
  | nil =>
    intro i0 T T' h
    have hTT : Except.ok (ε := PyError) T = .ok T' := h
    injection hTT with hTT
    subst hTT
    refine ⟨⟨rfl, rfl⟩, fun _ _ _ => rfl, fun k hk => absurd hk (Nat.not_lt_zero k)⟩
  | cons img rest ih =>
    intro i0 T T' h
    rw [pasteTiles] at h
    split at h
    · exact Except.noConfusion h
    · rename_i resized hres
      obtain ⟨-, -, hrw, hrh⟩ := resize_ok hres
      rw [Int.toNat_ofNat] at hrw hrh
      have hbx : (i0 : Int).fmod cc * (W : Int) = (((i0 % cc.toNat) * W : Nat) : Int) := by
        rw [fmod_toNat i0 cc hcc]; push_cast; ring
      have hby : (i0 : Int).fdiv cc * (H : Int) = (((i0 / cc.toNat) * H : Nat) : Int) := by
        rw [fdiv_toNat i0 cc hcc]; push_cast; ring
      rw [hbx, hby] at h
      obtain ⟨⟨hTw, hTh⟩, hunch, hidx⟩ := ih (i0 + 1) (T.paste2 resized (_, _)) T' h
      refine ⟨⟨hTw, hTh⟩, ?_, ?_⟩
      · -- pixels outside every cell of the processed indices are unchanged
        intro x y hnone
        have hrest : ∀ k, k < rest.length →
            ¬ ((((i0 + 1) + k) % cc.toNat) * W ≤ x ∧ x < (((i0 + 1) + k) % cc.toNat) * W + W ∧
               (((i0 + 1) + k) / cc.toNat) * H ≤ y ∧ y < (((i0 + 1) + k) / cc.toNat) * H + H) := by
          intro k hk
          have he : (i0 + 1) + k = i0 + (k + 1) := by omega
          rw [he]
          exact hnone (k + 1) (Nat.succ_lt_succ hk)
        rw [hunch x y hrest]
        apply paste2_pix_out
        rintro ⟨hx1, hx2, hy1, hy2⟩
        dsimp only at hx1 hx2 hy1 hy2
        rw [hrw] at hx2
        rw [hrh] at hy2
        refine hnone 0 (Nat.succ_pos _) ?_
        have hx1' : (i0 % cc.toNat) * W ≤ x := by exact_mod_cast hx1
        have hx2' : x < (i0 % cc.toNat) * W + W := by exact_mod_cast hx2
        have hy1' : (i0 / cc.toNat) * H ≤ y := by exact_mod_cast hy1
        have hy2' : y < (i0 / cc.toNat) * H + H := by exact_mod_cast hy2
        simp only [Nat.add_zero]
        exact ⟨hx1', hx2', hy1', hy2'⟩
      · intro k hk
        cases k with
        | zero =>
          refine ⟨resized, hres, hrw, hrh, ?_⟩
          simp only [Nat.add_zero]
          intro dx dy hdx hdy hxlt hylt
          have hstep : T'.pix ((i0 % cc.toNat) * W + dx) ((i0 / cc.toNat) * H + dy) =
              (T.paste2 resized ((((i0 % cc.toNat) * W : Nat) : Int),
                (((i0 / cc.toNat) * H : Nat) : Int))).pix
                ((i0 % cc.toNat) * W + dx) ((i0 / cc.toNat) * H + dy) := by
            apply hunch
            intro k' hk'
            have he : (i0 + 1) + k' = i0 + (k' + 1) := by omega
            rw [he]
            exact cells_disjoint cc.toNat W H i0 (i0 + (k' + 1)) (by omega)
              (Nat.le_add_right _ _) (by omega) (Nat.le_add_right _ _) (by omega)
          rw [hstep]
          exact paste2_pix_in T resized ((i0 % cc.toNat) * W) ((i0 / cc.toNat) * H) dx dy
            (by omega) (by omega) hxlt hylt
        | succ k' =>
          obtain ⟨P, hP, hPw, hPh, hpix⟩ := hidx k' (Nat.lt_of_succ_lt_succ hk)
          refine ⟨P, hP, hPw, hPh, ?_⟩
          intro dx dy hdx hdy hxlt hylt
          have he : i0 + (k' + 1) = (i0 + 1) + k' := by omega
          rw [he] at hxlt hylt ⊢
          exact hpix dx dy hdx hdy hxlt hylt

/-- A grid cell x-range lies inside the canvas width W * min(N, c) for
every index k below the tile count N. -/
theorem cell_fits_width {k N c W x : Nat} (hc : 0 < c) (hk : k < N) (hx : x < W) :
    (k % c) * W + x < W * min N c := by
  have h2 : k % c < c := Nat.mod_lt k hc
  have h3 : k % c ≤ k := Nat.mod_le k c
  have h1 : k % c + 1 ≤ min N c := by omega
  calc (k % c) * W + x < (k % c + 1) * W := by rw [Nat.succ_mul]; omega
    _ ≤ min N c * W := Nat.mul_le_mul_right W h1
    _ = W * min N c := Nat.mul_comm _ _

/-- A grid cell y-range lies inside the canvas height R * H whenever the
row index k / c is below the allocated row count R. -/
theorem cell_fits_height {k R c H y : Nat} (hrow : k / c < R) (hy : y < H) :
    (k / c) * H + y < R * H := by
  calc (k / c) * H + y < (k / c + 1) * H := by rw [Nat.succ_mul]; omega
    _ ≤ R * H := Nat.mul_le_mul_right H hrow

/-- Inversion of a successful merge: the files all opened, the tile size
is the measured one, the canvas has the computed tileset dimensions, and
each image's center-padded copy fills its grid cell, as far as that cell
lies inside the canvas. -/
theorem generate_ok_spec (fs : FS) (files : List String) (cc : Int) (T : Image)
    (hcc : 1 ≤ cc) (hok : _generate_tileset_from_files fs files cc = .ok T) :
    ∃ imgs W H, openAll fs files = .ok imgs ∧
      imgs.length = files.length ∧
      _determine_tile_size imgs = .ok (W, H) ∧
      T.width = W * min files.length cc.toNat ∧
      T.height = max 1 (files.length / cc.toNat) * H ∧
      ∀ k (hk : k < imgs.length), ∃ P,
        resize_and_centre (imgs.get ⟨k, hk⟩) ((W : Int), (H : Int)) = .ok P ∧
        P.width = W ∧ P.height = H ∧
        ∀ dx dy : Nat, dx < W → dy < H →
          (k % cc.toNat) * W + dx < T.width →
          (k / cc.toNat) * H + dy < T.height →
          T.pix ((k % cc.toNat) * W + dx) ((k / cc.toNat) * H + dy) = P.pix dx dy := by
  have hccne : cc ≠ 0 := by omega
  obtain ⟨c, rfl⟩ : ∃ c : Nat, cc = (c : Int) := ⟨cc.toNat, (Int.toNat_of_nonneg (by omega)).symm⟩
  simp only [Int.toNat_ofNat]
  unfold _generate_tileset_from_files at hok
  split at hok
  · exact Except.noConfusion hok
  · rename_i first_pass hopen1
    split at hok
    · exact Except.noConfusion hok
    · rename_i tile_size htile
      split at hok
      · exact Except.noConfusion hok
      · rename_i tileset_size hsize
        split at hok
        · exact Except.noConfusion hok
        · rename_i tileset hnew
          split at hok
          · exact Except.noConfusion hok
          · rename_i second_pass hopen2
            injection hopen2 with hsp
            subst hsp
            obtain ⟨W, H⟩ := tile_size
            unfold _determine_final_size at hsize
            rw [if_neg hccne] at hsize
            injection hsize with hsize
            subst hsize
            obtain ⟨hw0, hh0, hTw, hTh, -⟩ := new_ok hnew
            obtain ⟨⟨hT'w, hT'h⟩, -, hidx⟩ :=
              pasteTiles_ok_spec (c : Int) hcc W H first_pass 0 tileset T hok
            simp only [Nat.zero_add, Int.toNat_ofNat] at hidx
            have hwidth : T.width = W * min files.length c := by
              rw [hT'w, hTw]
              have hcast : ((W : Int) * min (files.length : Int) (c : Int)) =
                  ((W * min files.length c : Nat) : Int) := by push_cast; ring
              dsimp only
              rw [hcast, Int.toNat_ofNat]
            have hheight : T.height = max 1 (files.length / c) * H := by
              rw [hT'h, hTh]
              have hcast : max 1 ((files.length : Int).fdiv (c : Int)) * (H : Int) =
                  ((max 1 (files.length / c) * H : Nat) : Int) := by
                rw [fdiv_toNat files.length (c : Int) hcc, Int.toNat_ofNat]
                push_cast
                ring
              dsimp only
              rw [hcast, Int.toNat_ofNat]
            refine ⟨first_pass, W, H, hopen1, openAll_length hopen1, htile,
              hwidth, hheight, ?_⟩
            intro k hk
            obtain ⟨P, hP, hPw, hPh, hpix⟩ := hidx k hk
            refine ⟨P, hP, hPw, hPh, ?_⟩
            intro dx dy hdx hdy hxlt hylt
            rw [hT'w] at hxlt
            rw [hT'h] at hylt
            exact hpix dx dy hdx hdy hxlt hylt

/-- C4: in a successful merge the padded copy of the image at zero-based
index k is pasted at destination offset x = (k mod columns) * tileWidth,
y = (k div columns) * tileHeight (for a natural index and a positive
column count the Python floor operations coincide with Nat mod and div),
in the original input order: every canvas pixel inside the grid cell of
index k carries the corresponding pixel of that padded copy. -/
theorem C4_grid_offsets (fs : FS) (files : List String) (cc : Int) (T : Image)
    (hcc : 1 ≤ cc) (hok : _generate_tileset_from_files fs files cc = .ok T) :
    ∃ imgs W H, openAll fs files = .ok imgs ∧
      _determine_tile_size imgs = .ok (W, H) ∧
      ∀ k (hk : k < imgs.length), ∃ P,
        resize_and_centre (imgs.get ⟨k, hk⟩) ((W : Int), (H : Int)) = .ok P ∧
        ∀ dx dy : Nat, dx < W → dy < H →
          (k % cc.toNat) * W + dx < T.width →
          (k / cc.toNat) * H + dy < T.height →
          T.pix ((k % cc.toNat) * W + dx) ((k / cc.toNat) * H + dy) = P.pix dx dy := by
  obtain ⟨imgs, W, H, h1, -, h3, -, -, h6⟩ := generate_ok_spec fs files cc T hcc hok
  refine ⟨imgs, W, H, h1, h3, ?_⟩
  intro k hk
  obtain ⟨P, hP, -, -, hpix⟩ := h6 k hk
  exact ⟨P, hP, hpix⟩

/-- Witness for C4: merging the single 1 by 1 file a with one column. -/
theorem C4_witness :
    (1 : Int) ≤ 1 ∧
    _generate_tileset_from_files fsW ["a"] 1 = .ok genHit ∧
    ∃ imgs W H, openAll fsW ["a"] = .ok imgs ∧
      _determine_tile_size imgs = .ok (W, H) ∧
      ∀ k (hk : k < imgs.length), ∃ P,
        resize_and_centre (imgs.get ⟨k, hk⟩) ((W : Int), (H : Int)) = .ok P ∧
        ∀ dx dy : Nat, dx < W → dy < H →
          (k % (1 : Int).toNat) * W + dx < genHit.width →
          (k / (1 : Int).toNat) * H + dy < genHit.height →
          genHit.pix ((k % (1 : Int).toNat) * W + dx) ((k / (1 : Int).toNat) * H + dy) =
            P.pix dx dy :=
  ⟨le_refl 1, rfl, C4_grid_offsets fsW ["a"] 1 genHit (le_refl 1) rfl⟩

/-- C5 counterexample: three 1 by 1 images merged at two columns give a
2 by 1 canvas; the grid cell of index 2 sits at offset (0, 1), entirely
below the canvas, so cropping it yields a transparent tile and not the
center-padded form of image 2 — the round trip fails at index 2 even
though merging succeeded. -/
theorem C5_counterexample :
    _generate_tileset_from_files fsW ["a", "a", "a"] 2 = .ok genC ∧
    resize_and_centre imgA (1, 1) = .ok padA ∧
    ¬ (genC.crop (0, 1, 1, 2)).sameAs padA :=
  ⟨rfl, rfl, fun hsame => absurd (hsame.2.2 0 (by decide) 0 (by decide)) (by decide)⟩

/-- C5 (amended): in a successful merge, cropping the grid cell of index
k reproduces the center-padded form of image k exactly for every index
whose row k div columns lies inside the allocated max(1, N div columns)
rows; cells of a final partial row lie below the canvas and crop to a
fully transparent tile instead (see the counterexample). -/
theorem C5_roundtrip_amended (fs : FS) (files : List String) (cc : Int) (T : Image)
    (hcc : 1 ≤ cc) (hok : _generate_tileset_from_files fs files cc = .ok T) :
    ∃ imgs W H, openAll fs files = .ok imgs ∧
      _determine_tile_size imgs = .ok (W, H) ∧
      ∀ k (hk : k < imgs.length), k / cc.toNat < max 1 (files.length / cc.toNat) →
        ∃ P, resize_and_centre (imgs.get ⟨k, hk⟩) ((W : Int), (H : Int)) = .ok P ∧
          (T.crop ((((k % cc.toNat) * W : Nat) : Int), (((k / cc.toNat) * H : Nat) : Int),
                   (((k % cc.toNat) * W + W : Nat) : Int),
                   (((k / cc.toNat) * H + H : Nat) : Int))).sameAs P := by
  have hcpos : 0 < cc.toNat := by omega
  obtain ⟨imgs, W, H, h1, hlen, h3, hTw, hTh, h6⟩ := generate_ok_spec fs files cc T hcc hok
  refine ⟨imgs, W, H, h1, h3, ?_⟩
  intro k hk hrow
  obtain ⟨P, hP, hPw, hPh, hpix⟩ := h6 k hk
  refine ⟨P, hP, ?_⟩
  have hcw : (T.crop ((((k % cc.toNat) * W : Nat) : Int), (((k / cc.toNat) * H : Nat) : Int),
      (((k % cc.toNat) * W + W : Nat) : Int), (((k / cc.toNat) * H + H : Nat) : Int))).width
      = W := by
    simp only [Image.crop]
    have hcast : (((k % cc.toNat) * W + W : Nat) : Int) - (((k % cc.toNat) * W : Nat) : Int) =
        ((W : Nat) : Int) := by push_cast; ring
    rw [hcast, Int.toNat_ofNat]
  have hch : (T.crop ((((k % cc.toNat) * W : Nat) : Int), (((k / cc.toNat) * H : Nat) : Int),
      (((k % cc.toNat) * W + W : Nat) : Int), (((k / cc.toNat) * H + H : Nat) : Int))).height
      = H := by
    simp only [Image.crop]
    have hcast : (((k / cc.toNat) * H + H : Nat) : Int) - (((k / cc.toNat) * H : Nat) : Int) =
        ((H : Nat) : Int) := by push_cast; ring
    rw [hcast, Int.toNat_ofNat]
  refine ⟨hcw.trans hPw.symm, hch.trans hPh.symm, ?_⟩
  intro x hx y hy
  rw [hcw] at hx
  rw [hch] at hy
  have hxw : (k % cc.toNat) * W + x < T.width := by
    rw [hTw]
    exact cell_fits_width hcpos (hlen ▸ hk) hx
  have hyh : (k / cc.toNat) * H + y < T.height := by
    rw [hTh]
    exact cell_fits_height hrow hy
  have hcrop : (T.crop ((((k % cc.toNat) * W : Nat) : Int), (((k / cc.toNat) * H : Nat) : Int),
      (((k % cc.toNat) * W + W : Nat) : Int), (((k / cc.toNat) * H + H : Nat) : Int))).pix x y
      = T.pix ((k % cc.toNat) * W + x) ((k / cc.toNat) * H + y) := by
    simp only [Image.crop]
    rw [if_pos]
    · have hcx : (((k % cc.toNat) * W : Nat) : Int) + (x : Int) =
          (((k % cc.toNat) * W + x : Nat) : Int) := by push_cast; ring
      have hcy : (((k / cc.toNat) * H : Nat) : Int) + (y : Int) =
          (((k / cc.toNat) * H + y : Nat) : Int) := by push_cast; ring
      rw [hcx, hcy, Int.toNat_ofNat, Int.toNat_ofNat]
    · refine ⟨by positivity, ?_, by positivity, ?_⟩
      · exact_mod_cast hxw
      · exact_mod_cast hyh
  rw [hcrop]
  exact hpix x y hx hy hxw hyh

/-- Witness for C5 amended theorem: merging the single 1 by 1 file a with
one column, every index lies in the allocated single row. -/
theorem C5_witness :
    (1 : Int) ≤ 1 ∧
    _generate_tileset_from_files fsW ["a"] 1 = .ok genHit ∧
    ∃ imgs W H, openAll fsW ["a"] = .ok imgs ∧
      _determine_tile_size imgs = .ok (W, H) ∧
      ∀ k (hk : k < imgs.length),
        k / (1 : Int).toNat < max 1 ((["a"] : List String).length / (1 : Int).toNat) →
        ∃ P, resize_and_centre (imgs.get ⟨k, hk⟩) ((W : Int), (H : Int)) = .ok P ∧
          (genHit.crop ((((k % (1 : Int).toNat) * W : Nat) : Int),
                        (((k / (1 : Int).toNat) * H : Nat) : Int),
                        (((k % (1 : Int).toNat) * W + W : Nat) : Int),
                        (((k / (1 : Int).toNat) * H + H : Nat) : Int))).sameAs P :=
  ⟨le_refl 1, rfl, C5_roundtrip_amended fsW ["a"] 1 genHit (le_refl 1) rfl⟩

end Pytmm

